import Mathlib

/-!
# Quorum reconciliation of the Typesense cluster controller

A shallow embedding of `internal/controller/typesensecluster_quorum.go`
(`ReconcileQuorum`, `getQuorumHealth`, `scaleStatefulSet`) and theorems about it.

Conventions of the embedding

* Go `int`, `int32`: `Int`. The only arithmetic is `(availableNodes-1)/2 + 1` and the
  decrements of `healthyNodes`, both bounded by the length of a slice, so no
  wrap-around can occur; Go `/` truncates toward zero and is `Int.tdiv`.
* Go `error`: `Option Err`, `none` being `nil`.
* Go `string`: `String`, handled as its list of characters.
* Everything outside the file (the API server, the HTTP endpoints of the nodes,
  `updateConfigMap`) is a field of `World`; every call made to it is recorded, in
  order, in a list of `Call`s returned next to the Go result. Calls to the logger
  are not recorded.
-/

namespace controller

/-! ## Library functions used by the source -/

/-- Go error values: the message of a non-nil error. -/
abbrev Err := String

/-- First occurrence of `old` in `s`: the text before it and the text after it. -/
def stringsCut (old : List Char) : List Char → Option (List Char × List Char)
  | [] => if old.isEmpty then some ([], []) else none
  | c :: t =>
    if old.isPrefixOf (c :: t) then some ([], (c :: t).drop old.length)
    else
      match stringsCut old t with
      | some (before, after) => some (c :: before, after)
      | none => none

/-- Go `strings.Replace(s, old, new, 1)`: only the first occurrence of `old` is replaced.
Go matches bytes; on valid UTF-8 text a match of the pattern of the source, a colon and
decimal digits, starts and ends on character boundaries, so matching characters is the
same. -/
def stringsReplace (s old new : String) : String :=
  match stringsCut old.data s.data with
  | some (before, after) => String.mk (before ++ new.data ++ after)
  | none => s

/-- Splitting of a character list around every occurrence of `sep`. -/
def splitChars (sep : Char) : List Char → List (List Char)
  | [] => [[]]
  | c :: t =>
    if c = sep then [] :: splitChars sep t
    else
      match splitChars sep t with
      | h :: r => (c :: h) :: r
      | [] => [[c]]

/-- Go `strings.Split(s, sep)` for a one-character separator (the source passes `","`):
the empty string yields one empty field. -/
def stringsSplit (s : String) (sep : Char) : List String :=
  (splitChars sep s.data).map String.mk

/-- Go `fmt.Sprintf("%d", n)`. -/
def fmtD (n : Int) : String := toString n

/-! ## Data model -/

/-- Source: `type NodeHealthResponse struct`. -/
structure NodeHealthResponse where
  Ok : Bool
  ResourceError : String
  deriving DecidableEq, Repr

/-- Modelled from the spec: the `ConditionQuorum` constants are declared outside the given
source file; the spec lists the five outcomes {WorkloadNotReady, QuorumNotReady,
QuorumDowngraded, QuorumUpgraded, QuorumReady} as distinct values. -/
inductive ConditionQuorum where
  | ConditionReasonStatefulSetNotReady
  | ConditionReasonQuorumNotReady
  | ConditionReasonQuorumDowngraded
  | ConditionReasonQuorumUpgraded
  | ConditionReasonQuorumReady
  deriving DecidableEq, Repr

open ConditionQuorum

/-- The fields of `tsv1alpha1.TypesenseClusterSpec` the source reads. -/
structure TypesenseClusterSpec where
  Replicas : Int
  PeeringPort : Int
  deriving DecidableEq, Repr

/-- The fields of `tsv1alpha1.TypesenseCluster` the source reads. -/
structure TypesenseCluster where
  Name : String
  Namespace : String
  Spec : TypesenseClusterSpec
  deriving DecidableEq, Repr

/-- The field of `appsv1.StatefulSetSpec` the source reads: `Replicas *int32`. -/
structure StatefulSetSpec where
  Replicas : Option Int
  deriving DecidableEq, Repr

/-- The fields of `appsv1.StatefulSetStatus` the source reads. -/
structure StatefulSetStatus where
  Replicas : Int
  ReadyReplicas : Int
  deriving DecidableEq, Repr

/-- The fields of `appsv1.StatefulSet` the source reads. -/
structure StatefulSet where
  Name : String
  Spec : StatefulSetSpec
  Status : StatefulSetStatus
  deriving DecidableEq, Repr

/-- Kubernetes `v1.ConfigMap`: `Data map[string]string` as an association list. -/
structure ConfigMap where
  Data : List (String × String)
  deriving DecidableEq, Repr

/-- Go `cm.Data[key]`: the zero value `""` for a missing key or a nil map. -/
def ConfigMap.get (cm : ConfigMap) (key : String) : String :=
  match cm.Data.lookup key with
  | some v => v
  | none => ""

/-- What one pass through the body of the probing loop can meet, in source order:
`httpClient.Get` fails; `io.ReadAll` fails; `json.Unmarshal` fails; the body decodes
into a `NodeHealthResponse`. The HTTP status code of a response is carried along; the
source never reads it. -/
inductive ProbeOutcome where
  | getError (err : Err)
  | readError (statusCode : Int) (err : Err)
  | unmarshalError (statusCode : Int) (err : Err)
  | decoded (statusCode : Int) (ready : NodeHealthResponse)
  deriving DecidableEq, Repr

/-- One call to something outside the file. -/
inductive Call where
  | Get (ns name : String)
  | httpGet (url : String)
  | updateConfigMap (replicas : Int)
  | Update (desired : StatefulSet)
  deriving DecidableEq, Repr

/-- The collaborators of one invocation, each with an arbitrary behaviour.
`Get` is `r.Get` on the roster config map, `httpGet i url` the outcome of the `i`-th
request of the loop, `updateConfigMap` the helper of that name (its returned size and
error), `Update` is `r.Client.Update` on the stateful set. -/
structure World where
  Get : String → String → Except Err ConfigMap
  httpGet : Nat → String → ProbeOutcome
  updateConfigMap : TypesenseCluster → ConfigMap → Int → Int × Option Err
  Update : StatefulSet → Option Err

/-- The result triple of `ReconcileQuorum` and of `getQuorumHealth`. -/
abbrev Result := ConditionQuorum × Int × Option Err

/-! ## The source functions -/

/-- Source line 47: `minRequiredNodes := (availableNodes-1)/2 + 1`. -/
def minRequiredNodes (availableNodes : Int) : Int :=
  Int.tdiv (availableNodes - 1) 2 + 1

/-- Source lines 135-149. -/
def scaleStatefulSet (w : World) (sts : StatefulSet) (desiredReplicas : Int) :
    Option Err × List Call :=
  if sts.Spec.Replicas = some desiredReplicas then (none, [])
  else
    let desired : StatefulSet := { sts with Spec := { Replicas := some desiredReplicas } }
    match w.Update desired with
    | some err => (some err, [Call.Update desired])
    | none => (none, [Call.Update desired])

/-- Source lines 37-43: the config map after `r.Get`; a failed read is logged and leaves
the zero-valued object. -/
def fetchConfigMap (w : World) (ts : TypesenseCluster) : ConfigMap :=
  match w.Get ts.Namespace (ts.Name ++ "-nodeslist") with
  | .ok cm => cm
  | .error _ => { Data := [] }

/-- Source line 45: `nodes := strings.Split(cm.Data["nodes"], ",")`. -/
def nodesOf (cm : ConfigMap) : List String :=
  stringsSplit (cm.get "nodes") ','

/-- Source lines 58-59: the address requested for a roster entry. -/
def nodeUrl (ts : TypesenseCluster) (node : String) : String :=
  stringsReplace node (":" ++ fmtD ts.Spec.PeeringPort) ""

/-- Source line 59: `fmt.Sprintf("http://%s/health", nodeUrl)`. -/
def healthUrl (ts : TypesenseCluster) (node : String) : String :=
  "http://" ++ nodeUrl ts node ++ "/health"

/-- Source lines 60-86: the value stored in `healthResults[node]` for one outcome. -/
def nodeHealth : ProbeOutcome → Bool
  | .getError _ => false
  | .readError _ _ => false
  | .unmarshalError _ _ => false
  | .decoded _ ready => ready.Ok

/-- Go `m[key] = value` on `map[string]bool`: an existing key is overwritten. -/
def mapStore : List (String × Bool) → String → Bool → List (String × Bool)
  | [], key, value => [(key, value)]
  | (k, v) :: rest, key, value =>
    if k = key then (key, value) :: rest else (k, v) :: mapStore rest key value

/-- Source lines 57-87: the loop over `nodes` from iteration `i` on, with the map built
so far; returns the final `healthResults` and the requests issued. -/
def probeNodes (w : World) (ts : TypesenseCluster) :
    Nat → List String → List (String × Bool) → List (String × Bool) × List Call
  | _, [], healthResults => (healthResults, [])
  | i, node :: rest, healthResults =>
    let url := healthUrl ts node
    let r := probeNodes w ts (i + 1) rest (mapStore healthResults node (nodeHealth (w.httpGet i url)))
    (r.1, Call.httpGet url :: r.2)

/-- Source lines 89-94: `healthyNodes` starts at `availableNodes` and is decremented once
for every entry of `healthResults` that is false. -/
def healthyNodes (availableNodes : Int) (healthResults : List (String × Bool)) : Int :=
  healthResults.foldl (fun h entry => if !entry.2 then h - 1 else h) availableNodes

/-- Source lines 36-133. -/
def getQuorumHealth (w : World) (ts : TypesenseCluster) (sts : StatefulSet) :
    Result × List Call :=
  let configMapName := ts.Name ++ "-nodeslist"
  let cm := fetchConfigMap w ts
  let read := [Call.Get ts.Namespace configMapName]
  let nodes := nodesOf cm
  let availableNodes : Int := nodes.length
  let minRequired := minRequiredNodes availableNodes
  if availableNodes < minRequired then
    ((ConditionReasonQuorumNotReady, availableNodes,
      some ("quorum has less than minimum " ++ fmtD minRequired ++ " available nodes")), read)
  else
    let probes := probeNodes w ts 0 nodes []
    let healthy := healthyNodes availableNodes probes.1
    if healthy < minRequired then
      if sts.Status.ReadyReplicas > 1 then
        let resized := w.updateConfigMap ts cm 1
        match resized.2 with
        | some err =>
          ((ConditionReasonQuorumNotReady, 0, some err),
            read ++ probes.2 ++ [Call.updateConfigMap 1])
        | none =>
          let scaled := scaleStatefulSet w sts 1
          match scaled.1 with
          | some err =>
            ((ConditionReasonQuorumNotReady, 0, some err),
              read ++ probes.2 ++ [Call.updateConfigMap 1] ++ scaled.2)
          | none =>
            ((ConditionReasonQuorumDowngraded, resized.1, none),
              read ++ probes.2 ++ [Call.updateConfigMap 1] ++ scaled.2)
      else
        ((ConditionReasonQuorumNotReady, healthy,
          some ("quorum has " ++ fmtD healthy ++ " healthy nodes, minimum required "
            ++ fmtD minRequired)), read ++ probes.2)
    else if sts.Status.ReadyReplicas < ts.Spec.Replicas then
      let resized := w.updateConfigMap ts cm ts.Spec.Replicas
      match resized.2 with
      | some err =>
        ((ConditionReasonQuorumNotReady, 0, some err),
          read ++ probes.2 ++ [Call.updateConfigMap ts.Spec.Replicas])
      | none =>
        let scaled := scaleStatefulSet w sts ts.Spec.Replicas
        match scaled.1 with
        | some err =>
          ((ConditionReasonQuorumNotReady, 0, some err),
            read ++ probes.2 ++ [Call.updateConfigMap ts.Spec.Replicas] ++ scaled.2)
        | none =>
          ((ConditionReasonQuorumUpgraded, resized.1, none),
            read ++ probes.2 ++ [Call.updateConfigMap ts.Spec.Replicas] ++ scaled.2)
    else
      ((ConditionReasonQuorumReady, healthy, none), read ++ probes.2)

/-- Source lines 24-34. -/
def ReconcileQuorum (w : World) (ts : TypesenseCluster) (sts : StatefulSet) :
    Result × List Call :=
  if sts.Status.ReadyReplicas ≠ sts.Status.Replicas then
    ((ConditionReasonStatefulSetNotReady, 0,
      some ("statefulset not ready: " ++ fmtD sts.Status.ReadyReplicas ++ "/"
        ++ fmtD sts.Status.Replicas ++ " replicas ready")), [])
  else
    getQuorumHealth w ts sts

/-! ## The quantities the claims speak of, read off one invocation -/

/-- The roster of an invocation: `nodes` of `getQuorumHealth`. -/
def roster (w : World) (ts : TypesenseCluster) : List String :=
  nodesOf (fetchConfigMap w ts)

/-- The threshold `minRequiredNodes` of an invocation. -/
def minRequired (w : World) (ts : TypesenseCluster) : Int :=
  minRequiredNodes (roster w ts).length

/-- The value of `healthyNodes` after the tally loop of an invocation. -/
def healthyCount (w : World) (ts : TypesenseCluster) : Int :=
  healthyNodes (roster w ts).length (probeNodes w ts 0 (roster w ts) []).1

/-- The calls an invocation has made once the probing loop is over: the roster read,
then one request per roster entry. -/
def probeTrace (w : World) (ts : TypesenseCluster) : List Call :=
  Call.Get ts.Namespace (ts.Name ++ "-nodeslist") :: (probeNodes w ts 0 (roster w ts) []).2

/-- A call that changes something: the roster resize or the replica-count write. -/
def Call.isWrite : Call → Bool
  | .updateConfigMap _ => true
  | .Update _ => true
  | _ => false

/-! ## Definitions on the side of the specification -/

/-- The formula of the specification, section 4.1: `floor((n-1)/2)+1`, the floor taken
over the rationals. -/
def ComputeMinRequired (n : Int) : Int := ⌊((n : ℚ) - 1) / 2⌋ + 1

/-- Modelled from the spec: `updateConfigMap` is defined in another file of the
repository. Section 4.4 describes it as `RosterStore.Resize(clusterId, desiredSize) -> Roster`,
which "truncates or extends the stored address list to desiredSize and persists it".
`address i` is the address given to a member `i` that the stored list does not have. -/
def RosterStore.Resize (address : Nat → String) (stored : List String) (desiredSize : Nat) :
    List String :=
  (List.range desiredSize).map (fun i => stored.getD i (address i))

/-- Modelled from the spec: the behaviour of the absent `updateConfigMap` as a collaborator
of `getQuorumHealth`: the roster of the config map is resized with `RosterStore.Resize`
and persisted; `persist` is the outcome of the write. On success the size returned is
the length of the resized roster. -/
def updateConfigMapModel (address : Nat → String) (persist : List String → Option Err)
    (_ts : TypesenseCluster) (cm : ConfigMap) (replicas : Int) : Int × Option Err :=
  let resized := RosterStore.Resize address (nodesOf cm) replicas.toNat
  match persist resized with
  | some err => (0, some err)
  | none => (resized.length, none)

/-- Number of roster entries, from iteration `i` on, whose probe failed: transport error,
unreadable or unparseable body, or `ok == false`. -/
def probeFailuresFrom (w : World) (ts : TypesenseCluster) : Nat → List String → Nat
  | _, [] => 0
  | i, node :: rest =>
    (if nodeHealth (w.httpGet i (healthUrl ts node)) then 0 else 1)
      + probeFailuresFrom w ts (i + 1) rest

/-- Number of roster entries of an invocation whose probe failed. -/
def probeFailures (w : World) (ts : TypesenseCluster) : Nat :=
  probeFailuresFrom w ts 0 (roster w ts)

/-- Number of entries of `healthResults` that are false. -/
def unhealthyEntries (m : List (String × Bool)) : Nat :=
  (m.filter (fun entry => !entry.2)).length

/-! ## Concrete invocations (the scenarios of the specification, section 8) -/

/-- A cluster named `ts` with the given desired member count and peering port 8107. -/
def clusterOf (desired : Int) : TypesenseCluster :=
  { Name := "ts", Namespace := "default", Spec := { Replicas := desired, PeeringPort := 8107 } }

/-- A workload with the given desired, total and ready member counts. -/
def workloadOf (desired total ready : Int) : StatefulSet :=
  { Name := "ts-sts", Spec := { Replicas := some desired },
    Status := { Replicas := total, ReadyReplicas := ready } }

/-- The address of member `i`. -/
def memberAddress (i : Nat) : String := "ts-sts-" ++ toString i ++ ":8107"

/-- A healthy answer of a node. -/
def okAnswer : ProbeOutcome := .decoded 200 { Ok := true, ResourceError := "" }

/-- A world whose roster record holds `nodes`, whose first `failing` requests fail at the
transport and whose other requests answer `ok`, whose roster resize follows the model of
the specification and whose writes all succeed. -/
def worldOf (nodes : String) (failing : Nat) : World :=
  { Get := fun _ _ => .ok { Data := [("nodes", nodes)] }
    httpGet := fun i _ => if i < failing then .getError "context deadline exceeded" else okAnswer
    updateConfigMap := updateConfigMapModel memberAddress (fun _ => none)
    Update := fun _ => none }

/-- A roster of five members. -/
def rosterFive : String :=
  "ts-sts-0:8107,ts-sts-1:8107,ts-sts-2:8107,ts-sts-3:8107,ts-sts-4:8107"

/-- A roster of three members. -/
def rosterThree : String := "ts-sts-0:8107,ts-sts-1:8107,ts-sts-2:8107"

/-- A roster that names the same member twice. -/
def rosterTwice : String := "ts-sts-0:8107,ts-sts-0:8107"

/-! ## Further quantities and definitions on the side of the specification -/

/-- The roster entries from iteration `i` on, each with the value the loop stores for it
in `healthResults`. -/
def probeEntriesFrom (w : World) (ts : TypesenseCluster) :
    Nat → List String → List (String × Bool)
  | _, [] => []
  | i, node :: rest =>
    (node, nodeHealth (w.httpGet i (healthUrl ts node))) :: probeEntriesFrom w ts (i + 1) rest

/-- The roster entries of an invocation in roster order, each with its own probe result. -/
def probeEntries (w : World) (ts : TypesenseCluster) : List (String × Bool) :=
  probeEntriesFrom w ts 0 (roster w ts)

/-- The result recorded last, in the order of the list, for an address. -/
def lastOutcome : List (String × Bool) → String → Option Bool
  | [], _ => none
  | entry :: rest, address =>
    match lastOutcome rest address with
    | some healthy => some healthy
    | none => if entry.1 = address then some entry.2 else none

/-- The distinct addresses whose result recorded last is unhealthy. -/
def unhealthyAddresses (entries : List (String × Bool)) : List String :=
  (entries.map Prod.fst).dedup.filter (fun address => lastOutcome entries address = some false)

/-- The healthy count of a list of entries, each an address with its probe result:
`healthResults` is filled in the order of the list, then tallied as in the source. -/
def tally (entries : List (String × Bool)) : Int :=
  healthyNodes entries.length (entries.foldl (fun m entry => mapStore m entry.1 entry.2) [])

/-- The size a transition of the invocation aims at: 1 below the threshold (downgrade),
the desired member count otherwise (upgrade). -/
def targetSize (w : World) (ts : TypesenseCluster) : Int :=
  if healthyCount w ts < minRequired w ts then 1 else ts.Spec.Replicas

/-- The copy of the workload that `scaleStatefulSet` writes for a replica count. -/
def scaledTo (sts : StatefulSet) (replicas : Int) : StatefulSet :=
  { sts with Spec := { Replicas := some replicas } }

/-- The writes among the calls of an invocation, in order. -/
def writesOf (w : World) (ts : TypesenseCluster) (sts : StatefulSet) : List Call :=
  (ReconcileQuorum w ts sts).2.filter Call.isWrite

/-- The normalisation as the specification words it, section 4.2: the suffix `:port` is
stripped from the address if present, and the address is left as it is otherwise. -/
def stripPortSuffix (address : String) (port : Int) : String :=
  if (":" ++ fmtD port).data.isSuffixOf address.data then
    String.mk (address.data.take (address.data.length - (":" ++ fmtD port).data.length))
  else address

/-- A world whose roster record holds `nodes`, whose `i`-th request has the `i`-th of
`outcomes` (a transport error past the end of the list), whose roster resize follows the
model of the specification with `resize` as the outcome of persisting, and whose
replica-count write has the outcome `update`. -/
def worldWith (nodes : String) (outcomes : List ProbeOutcome) (resize update : Option Err) :
    World :=
  { Get := fun _ _ => .ok { Data := [("nodes", nodes)] }
    httpGet := fun i _ => outcomes.getD i (.getError "connection refused")
    updateConfigMap := updateConfigMapModel memberAddress (fun _ => resize)
    Update := fun _ => update }

/-- A world whose roster record cannot be read; every request fails at the transport. -/
def worldUnreadable : World :=
  { Get := fun _ _ => .error "configmaps \"ts-nodeslist\" not found"
    httpGet := fun _ _ => .getError "no such host"
    updateConfigMap := updateConfigMapModel memberAddress (fun _ => none)
    Update := fun _ => none }

/-- An answer with the given status code and `ok` field. -/
def answer (statusCode : Int) (ok : Bool) : ProbeOutcome :=
  .decoded statusCode { Ok := ok, ResourceError := "" }

/-- A roster resize among the calls. -/
def Call.isResize : Call → Bool
  | .updateConfigMap _ => true
  | _ => false

/-- A roster that names its first member twice, then a second member. -/
def rosterRepeat : String := "ts-sts-0:8107,ts-sts-0:8107,ts-sts-1:8107"

/-! ## Lemmas on the library functions and on the threshold -/

theorem splitChars_length_pos (sep : Char) (s : List Char) :
    1 ≤ (splitChars sep s).length := by
  induction s with
  | nil => simp [splitChars]
  | cons c t ih =>
    unfold splitChars
    split_ifs
    · simp
    · split <;> simp

theorem nodesOf_length_pos (cm : ConfigMap) : 1 ≤ (nodesOf cm).length := by
  simp [nodesOf, stringsSplit, splitChars_length_pos]

/-- On a roster of at least one entry the truncating division of Go agrees with the
flooring one. -/
theorem minRequiredNodes_eq_ediv (n : Int) (h : 1 ≤ n) :
    minRequiredNodes n = (n - 1) / 2 + 1 := by
  unfold minRequiredNodes
  rw [Int.tdiv_eq_ediv (by omega) (by decide)]

/-- The test of source line 48 is false for the roster of every invocation. -/
theorem getQuorumHealth_gate (w : World) (ts : TypesenseCluster) :
    ¬ (((roster w ts).length : Int) < minRequired w ts) := by
  have h := nodesOf_length_pos (fetchConfigMap w ts)
  unfold minRequired roster
  rw [minRequiredNodes_eq_ediv _ (by exact_mod_cast h)]
  omega

/-! ## The branches of `getQuorumHealth` -/

theorem ReconcileQuorum_of_ready (w : World) (ts : TypesenseCluster) (sts : StatefulSet)
    (hready : sts.Status.ReadyReplicas = sts.Status.Replicas) :
    ReconcileQuorum w ts sts = getQuorumHealth w ts sts := by
  simp [ReconcileQuorum, hready]

/-- Source line 132. -/
theorem getQuorumHealth_steady (w : World) (ts : TypesenseCluster) (sts : StatefulSet)
    (hquorum : ¬ healthyCount w ts < minRequired w ts)
    (hsize : ¬ sts.Status.ReadyReplicas < ts.Spec.Replicas) :
    getQuorumHealth w ts sts =
      ((ConditionReasonQuorumReady, healthyCount w ts, none), probeTrace w ts) := by
  have hg := getQuorumHealth_gate w ts
  unfold healthyCount minRequired roster at *
  unfold probeTrace roster
  simp only [getQuorumHealth, if_neg hg, if_neg hquorum, if_neg hsize]
  rfl

/-- Source line 113. -/
theorem getQuorumHealth_lost (w : World) (ts : TypesenseCluster) (sts : StatefulSet)
    (hquorum : healthyCount w ts < minRequired w ts)
    (hsize : ¬ sts.Status.ReadyReplicas > 1) :
    getQuorumHealth w ts sts =
      ((ConditionReasonQuorumNotReady, healthyCount w ts,
        some ("quorum has " ++ fmtD (healthyCount w ts) ++ " healthy nodes, minimum required "
            ++ fmtD (minRequired w ts))), probeTrace w ts) := by
  have hg := getQuorumHealth_gate w ts
  unfold healthyCount minRequired roster at *
  unfold probeTrace roster
  simp only [getQuorumHealth, if_neg hg, if_pos hquorum, if_neg hsize]
  rfl

/-- Source lines 97-111. -/
theorem getQuorumHealth_downgrade (w : World) (ts : TypesenseCluster) (sts : StatefulSet)
    (hquorum : healthyCount w ts < minRequired w ts)
    (hsize : sts.Status.ReadyReplicas > 1) :
    getQuorumHealth w ts sts =
      match (w.updateConfigMap ts (fetchConfigMap w ts) 1).2 with
      | some err =>
        ((ConditionReasonQuorumNotReady, 0, some err),
          probeTrace w ts ++ [Call.updateConfigMap 1])
      | none =>
        match (scaleStatefulSet w sts 1).1 with
        | some err =>
          ((ConditionReasonQuorumNotReady, 0, some err),
            probeTrace w ts ++ [Call.updateConfigMap 1] ++ (scaleStatefulSet w sts 1).2)
        | none =>
          ((ConditionReasonQuorumDowngraded,
              (w.updateConfigMap ts (fetchConfigMap w ts) 1).1, none),
            probeTrace w ts ++ [Call.updateConfigMap 1] ++ (scaleStatefulSet w sts 1).2) := by
  have hg := getQuorumHealth_gate w ts
  unfold healthyCount minRequired roster at *
  unfold probeTrace roster
  simp only [getQuorumHealth, if_neg hg, if_pos hquorum, if_pos hsize]
  rfl

/-- Source lines 115-129. -/
theorem getQuorumHealth_upgrade (w : World) (ts : TypesenseCluster) (sts : StatefulSet)
    (hquorum : ¬ healthyCount w ts < minRequired w ts)
    (hsize : sts.Status.ReadyReplicas < ts.Spec.Replicas) :
    getQuorumHealth w ts sts =
      match (w.updateConfigMap ts (fetchConfigMap w ts) ts.Spec.Replicas).2 with
      | some err =>
        ((ConditionReasonQuorumNotReady, 0, some err),
          probeTrace w ts ++ [Call.updateConfigMap ts.Spec.Replicas])
      | none =>
        match (scaleStatefulSet w sts ts.Spec.Replicas).1 with
        | some err =>
          ((ConditionReasonQuorumNotReady, 0, some err),
            probeTrace w ts ++ [Call.updateConfigMap ts.Spec.Replicas]
              ++ (scaleStatefulSet w sts ts.Spec.Replicas).2)
        | none =>
          ((ConditionReasonQuorumUpgraded,
              (w.updateConfigMap ts (fetchConfigMap w ts) ts.Spec.Replicas).1, none),
            probeTrace w ts ++ [Call.updateConfigMap ts.Spec.Replicas]
              ++ (scaleStatefulSet w sts ts.Spec.Replicas).2) := by
  have hg := getQuorumHealth_gate w ts
  unfold healthyCount minRequired roster at *
  unfold probeTrace roster
  simp only [getQuorumHealth, if_neg hg, if_neg hquorum, if_pos hsize]
  rfl

/-! ## The calls of an invocation -/

theorem probeNodes_trace (w : World) (ts : TypesenseCluster) (nodes : List String) :
    ∀ (i : Nat) (m : List (String × Bool)),
      (probeNodes w ts i nodes m).2
        = nodes.map (fun node => Call.httpGet (healthUrl ts node)) := by
  induction nodes with
  | nil => intro i m; rfl
  | cons node rest ih => intro i m; simp [probeNodes, ih]

theorem probeTrace_no_write (w : World) (ts : TypesenseCluster) :
    ∀ c ∈ probeTrace w ts, c.isWrite = false := by
  intro c hc
  simp only [probeTrace, probeNodes_trace, List.mem_cons, List.mem_map] at hc
  rcases hc with rfl | ⟨node, _, rfl⟩ <;> rfl

theorem scaleStatefulSet_trace (w : World) (sts : StatefulSet) (k : Int) :
    (scaleStatefulSet w sts k).2 =
      if sts.Spec.Replicas = some k then []
      else [Call.Update { sts with Spec := { Replicas := some k } }] := by
  unfold scaleStatefulSet
  split_ifs
  · rfl
  · simp only []; split <;> rfl

theorem Resize_length (address : Nat → String) (stored : List String) (k : Nat) :
    (RosterStore.Resize address stored k).length = k := by
  simp [RosterStore.Resize]

theorem updateConfigMapModel_size (address : Nat → String)
    (persist : List String → Option Err) (ts : TypesenseCluster) (cm : ConfigMap) (k : Int)
    (h : (updateConfigMapModel address persist ts cm k).2 = none) :
    (updateConfigMapModel address persist ts cm k).1 = (k.toNat : Int) := by
  unfold updateConfigMapModel at *
  simp only [] at *
  split at h
  · simp at h
  · rename_i hp; simp [hp, Resize_length]

/-! ## The tally -/

theorem healthyNodes_eq (m : List (String × Bool)) :
    ∀ n : Int, healthyNodes n m = n - (unhealthyEntries m : Int) := by
  induction m with
  | nil => intro n; simp [healthyNodes, unhealthyEntries]
  | cons e rest ih =>
    intro n
    have h := ih (if !e.2 then n - 1 else n)
    unfold healthyNodes at h ⊢
    rw [List.foldl_cons, h]
    cases he : e.2
    · simp [unhealthyEntries, List.filter_cons, he]; omega
    · simp [unhealthyEntries, List.filter_cons, he]

theorem mapStore_fresh (m : List (String × Bool)) (key : String) (value : Bool)
    (h : key ∉ m.map Prod.fst) : mapStore m key value = m ++ [(key, value)] := by
  induction m with
  | nil => rfl
  | cons e rest ih =>
    obtain ⟨k, v⟩ := e
    simp only [List.map_cons, List.mem_cons, not_or] at h
    simp only [mapStore, if_neg (Ne.symm h.1), ih h.2, List.cons_append]

theorem probeNodes_unhealthy_of_nodup (w : World) (ts : TypesenseCluster)
    (nodes : List String) :
    ∀ (i : Nat) (m : List (String × Bool)), nodes.Nodup →
      (∀ node ∈ nodes, node ∉ m.map Prod.fst) →
      unhealthyEntries (probeNodes w ts i nodes m).1
        = unhealthyEntries m + probeFailuresFrom w ts i nodes := by
  induction nodes with
  | nil => intro i m _ _; simp [probeNodes, probeFailuresFrom]
  | cons node rest ih =>
    intro i m hnd hfresh
    rw [List.nodup_cons] at hnd
    have hnode : node ∉ m.map Prod.fst := hfresh node (List.mem_cons_self _ _)
    simp only [probeNodes, probeFailuresFrom, mapStore_fresh m node _ hnode]
    rw [ih (i + 1) _ hnd.2]
    · cases nodeHealth (w.httpGet i (healthUrl ts node))
      · simp [unhealthyEntries, List.filter_append, List.filter_cons]; omega
      · simp [unhealthyEntries, List.filter_append, List.filter_cons]
    · intro n hn
      simp only [List.map_append, List.map_cons, List.map_nil, List.mem_append,
        List.mem_singleton, not_or]
      refine ⟨hfresh n (List.mem_cons_of_mem _ hn), ?_⟩
      rintro rfl
      exact hnd.1 hn

/-- On a roster that names no address twice the tally is the roster size minus the
number of failed probes. -/
theorem healthyCount_of_nodup (w : World) (ts : TypesenseCluster)
    (h : (roster w ts).Nodup) :
    healthyCount w ts = ((roster w ts).length : Int) - (probeFailures w ts : Int) := by
  unfold healthyCount probeFailures
  rw [healthyNodes_eq, probeNodes_unhealthy_of_nodup w ts _ 0 [] h (by simp)]
  simp [unhealthyEntries]

/-! ## The claims -/

/-- Claim C1. For every behaviour of the collaborators, `ReconcileQuorum` returns a non-nil
error exactly when the condition it returns is StatefulSetNotReady or QuorumNotReady, and
QuorumDowngraded, QuorumUpgraded and QuorumReady always come with a nil error. -/
theorem ReconcileQuorum_error_iff_not_ready (w : World) (ts : TypesenseCluster)
    (sts : StatefulSet) :
    ((ReconcileQuorum w ts sts).1.2.2.isSome = true ↔
      ((ReconcileQuorum w ts sts).1.1 = ConditionReasonStatefulSetNotReady ∨
        (ReconcileQuorum w ts sts).1.1 = ConditionReasonQuorumNotReady)) ∧
    (((ReconcileQuorum w ts sts).1.1 = ConditionReasonQuorumDowngraded ∨
        (ReconcileQuorum w ts sts).1.1 = ConditionReasonQuorumUpgraded ∨
        (ReconcileQuorum w ts sts).1.1 = ConditionReasonQuorumReady) →
      (ReconcileQuorum w ts sts).1.2.2 = none) := by
  unfold ReconcileQuorum getQuorumHealth
  simp only []
  split_ifs <;> (try split) <;> (try split) <;> simp

/-- Claim C2. When the ready member count differs from the total one, `ReconcileQuorum`
returns StatefulSetNotReady, size 0 and a non-nil error, and has called nothing: no roster
read, no probe, no roster resize, no replica-count write. -/
theorem ReconcileQuorum_workload_not_ready (w : World) (ts : TypesenseCluster)
    (sts : StatefulSet) (h : sts.Status.ReadyReplicas ≠ sts.Status.Replicas) :
    (ReconcileQuorum w ts sts).1.1 = ConditionReasonStatefulSetNotReady ∧
    (ReconcileQuorum w ts sts).1.2.1 = 0 ∧
    (ReconcileQuorum w ts sts).1.2.2.isSome = true ∧
    (ReconcileQuorum w ts sts).2 = [] := by
  simp [ReconcileQuorum, h]

/-- Witness of C2: two of three members ready. -/
theorem ReconcileQuorum_workload_not_ready_witness :
    (workloadOf 3 3 2).Status.ReadyReplicas ≠ (workloadOf 3 3 2).Status.Replicas ∧
    (ReconcileQuorum (worldOf rosterThree 0) (clusterOf 3) (workloadOf 3 3 2)).1.1
      = ConditionReasonStatefulSetNotReady ∧
    (ReconcileQuorum (worldOf rosterThree 0) (clusterOf 3) (workloadOf 3 3 2)).1.2.1 = 0 ∧
    (ReconcileQuorum (worldOf rosterThree 0) (clusterOf 3) (workloadOf 3 3 2)).1.2.2.isSome
      = true ∧
    (ReconcileQuorum (worldOf rosterThree 0) (clusterOf 3) (workloadOf 3 3 2)).2 = [] :=
  ⟨by decide,
    ReconcileQuorum_workload_not_ready (worldOf rosterThree 0) (clusterOf 3) (workloadOf 3 3 2)
      (by decide)⟩

/-- Claim C3. Downgrade: with ready = total, fewer healthy members than the threshold and
more than one ready member, when the roster resize (as the specification describes it)
and the scaling both succeed, the calls are the roster read, the probes, the resize to 1
and the scaling to 1 (one write of replica count 1, or none when the workload already
asks for 1), and the result is QuorumDowngraded, size 1, nil error. -/
theorem ReconcileQuorum_downgrade (w : World) (ts : TypesenseCluster) (sts : StatefulSet)
    (address : Nat → String) (persist : List String → Option Err)
    (hmodel : w.updateConfigMap = updateConfigMapModel address persist)
    (hready : sts.Status.ReadyReplicas = sts.Status.Replicas)
    (hquorum : healthyCount w ts < minRequired w ts)
    (hsize : sts.Status.ReadyReplicas > 1)
    (hresize : (w.updateConfigMap ts (fetchConfigMap w ts) 1).2 = none)
    (hscale : (scaleStatefulSet w sts 1).1 = none) :
    ReconcileQuorum w ts sts =
      ((ConditionReasonQuorumDowngraded, 1, none),
        probeTrace w ts ++ [Call.updateConfigMap 1] ++ (scaleStatefulSet w sts 1).2) ∧
    (scaleStatefulSet w sts 1).2 =
      if sts.Spec.Replicas = some 1 then []
      else [Call.Update { sts with Spec := { Replicas := some 1 } }] := by
  refine ⟨?_, scaleStatefulSet_trace w sts 1⟩
  have hsz : (w.updateConfigMap ts (fetchConfigMap w ts) 1).1 = 1 := by
    rw [hmodel] at hresize ⊢
    rw [updateConfigMapModel_size address persist ts _ 1 hresize]; rfl
  rw [ReconcileQuorum_of_ready w ts sts hready,
    getQuorumHealth_downgrade w ts sts hquorum hsize, hresize]
  simp only [hscale, hsz]

/-- Witness of C3, scenario B: roster of 5, ready = total = 5, desired 5, three probes
fail. -/
theorem ReconcileQuorum_downgrade_witness :
    healthyCount (worldOf rosterFive 3) (clusterOf 5) = 2 ∧
    minRequired (worldOf rosterFive 3) (clusterOf 5) = 3 ∧
    ReconcileQuorum (worldOf rosterFive 3) (clusterOf 5) (workloadOf 5 5 5) =
      ((ConditionReasonQuorumDowngraded, 1, none),
        [Call.Get "default" "ts-nodeslist",
          Call.httpGet "http://ts-sts-0/health", Call.httpGet "http://ts-sts-1/health",
          Call.httpGet "http://ts-sts-2/health", Call.httpGet "http://ts-sts-3/health",
          Call.httpGet "http://ts-sts-4/health",
          Call.updateConfigMap 1, Call.Update (workloadOf 1 5 5)]) :=
  ⟨by decide, by decide,
    (ReconcileQuorum_downgrade (worldOf rosterFive 3) (clusterOf 5) (workloadOf 5 5 5)
      memberAddress (fun _ => none) rfl (by decide) (by decide) (by decide) (by decide)
      (by decide)).1.trans (by decide)⟩

/-- Claim C4. Upgrade: with ready = total, at least as many healthy members as the
threshold and fewer ready members than desired, when the roster resize (as the
specification describes it) and the scaling both succeed, the calls are the roster read,
the probes, the resize to the desired count and the scaling to it, and the result is
QuorumUpgraded with the size of the resized roster (the desired count, when that is not
negative) and nil error. -/
theorem ReconcileQuorum_upgrade (w : World) (ts : TypesenseCluster) (sts : StatefulSet)
    (address : Nat → String) (persist : List String → Option Err)
    (hmodel : w.updateConfigMap = updateConfigMapModel address persist)
    (hready : sts.Status.ReadyReplicas = sts.Status.Replicas)
    (hquorum : healthyCount w ts ≥ minRequired w ts)
    (hsize : sts.Status.ReadyReplicas < ts.Spec.Replicas)
    (hresize : (w.updateConfigMap ts (fetchConfigMap w ts) ts.Spec.Replicas).2 = none)
    (hscale : (scaleStatefulSet w sts ts.Spec.Replicas).1 = none) :
    ReconcileQuorum w ts sts =
      ((ConditionReasonQuorumUpgraded,
          ((RosterStore.Resize address (roster w ts) ts.Spec.Replicas.toNat).length : Int),
          none),
        probeTrace w ts ++ [Call.updateConfigMap ts.Spec.Replicas]
          ++ (scaleStatefulSet w sts ts.Spec.Replicas).2) ∧
    (0 ≤ ts.Spec.Replicas →
      ((RosterStore.Resize address (roster w ts) ts.Spec.Replicas.toNat).length : Int)
        = ts.Spec.Replicas) ∧
    (scaleStatefulSet w sts ts.Spec.Replicas).2 =
      if sts.Spec.Replicas = some ts.Spec.Replicas then []
      else [Call.Update { sts with Spec := { Replicas := some ts.Spec.Replicas } }] := by
  refine ⟨?_, ?_, scaleStatefulSet_trace w sts _⟩
  · have hsz : (w.updateConfigMap ts (fetchConfigMap w ts) ts.Spec.Replicas).1 =
        ((RosterStore.Resize address (roster w ts) ts.Spec.Replicas.toNat).length : Int) := by
      rw [hmodel] at hresize ⊢
      rw [updateConfigMapModel_size address persist ts _ _ hresize, Resize_length]
    rw [ReconcileQuorum_of_ready w ts sts hready,
      getQuorumHealth_upgrade w ts sts (not_lt.mpr hquorum) hsize, hresize]
    simp only [hscale, hsz]
  · intro h
    rw [Resize_length]
    exact Int.toNat_of_nonneg h

/-- Witness of C4, scenario D: roster of 3, ready = total = 3, desired 5, every probe
succeeds. -/
theorem ReconcileQuorum_upgrade_witness :
    healthyCount (worldOf rosterThree 0) (clusterOf 5) = 3 ∧
    minRequired (worldOf rosterThree 0) (clusterOf 5) = 2 ∧
    ReconcileQuorum (worldOf rosterThree 0) (clusterOf 5) (workloadOf 3 3 3) =
      ((ConditionReasonQuorumUpgraded, 5, none),
        [Call.Get "default" "ts-nodeslist",
          Call.httpGet "http://ts-sts-0/health", Call.httpGet "http://ts-sts-1/health",
          Call.httpGet "http://ts-sts-2/health",
          Call.updateConfigMap 5, Call.Update (workloadOf 5 3 3)]) :=
  ⟨by decide, by decide,
    (ReconcileQuorum_upgrade (worldOf rosterThree 0) (clusterOf 5) (workloadOf 3 3 3)
      memberAddress (fun _ => none) rfl (by decide) (by decide) (by decide) (by decide)
      (by decide)).1.trans (by decide)⟩

/-- Claim C5. Steady state: with ready = total, at least as many healthy members as the
threshold and at least as many ready members as desired, the result is QuorumReady with
the healthy count and nil error; the calls are the roster read and the probes only, no
roster resize and no replica-count write. -/
theorem ReconcileQuorum_steady (w : World) (ts : TypesenseCluster) (sts : StatefulSet)
    (hready : sts.Status.ReadyReplicas = sts.Status.Replicas)
    (hquorum : healthyCount w ts ≥ minRequired w ts)
    (hsize : sts.Status.ReadyReplicas ≥ ts.Spec.Replicas) :
    ReconcileQuorum w ts sts =
      ((ConditionReasonQuorumReady, healthyCount w ts, none), probeTrace w ts) ∧
    ∀ c ∈ (ReconcileQuorum w ts sts).2, c.isWrite = false := by
  rw [ReconcileQuorum_of_ready w ts sts hready,
    getQuorumHealth_steady w ts sts (not_lt.mpr hquorum) (not_lt.mpr hsize)]
  exact ⟨rfl, probeTrace_no_write w ts⟩

/-- Witness of C5, scenario A: roster of 5, ready = total = 5, desired 5, two probes
fail. -/
theorem ReconcileQuorum_steady_witness :
    healthyCount (worldOf rosterFive 2) (clusterOf 5) = 3 ∧
    minRequired (worldOf rosterFive 2) (clusterOf 5) = 3 ∧
    (ReconcileQuorum (worldOf rosterFive 2) (clusterOf 5) (workloadOf 5 5 5)).1 =
      (ConditionReasonQuorumReady, 3, none) :=
  ⟨by decide, by decide,
    (congrArg Prod.fst
      (ReconcileQuorum_steady (worldOf rosterFive 2) (clusterOf 5) (workloadOf 5 5 5)
        (by decide) (by decide) (by decide)).1).trans (by decide)⟩

/-- Claim C6. Terminal quorum loss: with ready = total, fewer healthy members than the
threshold and at most one ready member, the result is QuorumNotReady with the healthy
count and a non-nil error; the calls are the roster read and the probes only, no roster
resize and no replica-count write. -/
theorem ReconcileQuorum_quorum_lost (w : World) (ts : TypesenseCluster) (sts : StatefulSet)
    (hready : sts.Status.ReadyReplicas = sts.Status.Replicas)
    (hquorum : healthyCount w ts < minRequired w ts)
    (hsize : sts.Status.ReadyReplicas ≤ 1) :
    (ReconcileQuorum w ts sts).1.1 = ConditionReasonQuorumNotReady ∧
    (ReconcileQuorum w ts sts).1.2.1 = healthyCount w ts ∧
    (ReconcileQuorum w ts sts).1.2.2.isSome = true ∧
    (ReconcileQuorum w ts sts).2 = probeTrace w ts ∧
    ∀ c ∈ (ReconcileQuorum w ts sts).2, c.isWrite = false := by
  rw [ReconcileQuorum_of_ready w ts sts hready,
    getQuorumHealth_lost w ts sts hquorum (not_lt.mpr hsize)]
  exact ⟨rfl, rfl, rfl, rfl, probeTrace_no_write w ts⟩

/-- Witness of C6, scenario C: roster of 1, ready = total = 1, the probe fails. -/
theorem ReconcileQuorum_quorum_lost_witness :
    healthyCount (worldOf "ts-sts-0:8107" 1) (clusterOf 1) = 0 ∧
    minRequired (worldOf "ts-sts-0:8107" 1) (clusterOf 1) = 1 ∧
    (ReconcileQuorum (worldOf "ts-sts-0:8107" 1) (clusterOf 1) (workloadOf 1 1 1)).1.1
      = ConditionReasonQuorumNotReady ∧
    (ReconcileQuorum (worldOf "ts-sts-0:8107" 1) (clusterOf 1) (workloadOf 1 1 1)).1.2.1
      = 0 :=
  ⟨by decide, by decide,
    (ReconcileQuorum_quorum_lost (worldOf "ts-sts-0:8107" 1) (clusterOf 1) (workloadOf 1 1 1)
      (by decide) (by decide) (by decide)).1,
    by decide⟩

/-- Claim C7, evaluated where it fails. The roster names one address twice and both
probes fail: the roster size is 2 and the number of failed probes is 2, yet the healthy
count is 1, which meets the threshold 1, and the invocation reports QuorumReady. -/
theorem healthyCount_duplicate_address :
    roster (worldOf rosterTwice 2) (clusterOf 2) = ["ts-sts-0:8107", "ts-sts-0:8107"] ∧
    probeFailures (worldOf rosterTwice 2) (clusterOf 2) = 2 ∧
    healthyCount (worldOf rosterTwice 2) (clusterOf 2) = 1 ∧
    healthyCount (worldOf rosterTwice 2) (clusterOf 2)
      ≠ ((roster (worldOf rosterTwice 2) (clusterOf 2)).length : Int)
        - (probeFailures (worldOf rosterTwice 2) (clusterOf 2) : Int) ∧
    (ReconcileQuorum (worldOf rosterTwice 2) (clusterOf 2) (workloadOf 2 2 2)).1
      = (ConditionReasonQuorumReady, 1, none) := by
  decide

/-- Claim C8 as stated fails: for a roster of 2 the threshold of the code is 1, which is
not the least `k` with `2 * k > 2`. -/
theorem minRequiredNodes_two_not_majority :
    ¬ IsLeast {k : Int | 2 * k > 2} (minRequiredNodes 2) := by
  intro h
  have h2 : 2 * minRequiredNodes 2 > 2 := h.1
  revert h2
  decide

/-- Claim C8, amended. For every roster size `n >= 1` the threshold of the code is the
least `k` with `2 * k >= n`; it is the least `k` with `2 * k > n`, a majority, when `n`
is odd, and exactly half of `n` when `n` is even. -/
theorem minRequiredNodes_least_half (n : Int) (h : 1 ≤ n) :
    IsLeast {k : Int | 2 * k ≥ n} (minRequiredNodes n) ∧
    (n % 2 = 1 → IsLeast {k : Int | 2 * k > n} (minRequiredNodes n)) ∧
    (n % 2 = 0 → 2 * minRequiredNodes n = n) := by
  rw [minRequiredNodes_eq_ediv n h]
  refine ⟨⟨?_, ?_⟩, fun hodd => ⟨?_, ?_⟩, fun heven => by omega⟩
  · show 2 * ((n - 1) / 2 + 1) ≥ n
    omega
  · intro k hk
    have hk2 : 2 * k ≥ n := hk
    omega
  · show 2 * ((n - 1) / 2 + 1) > n
    omega
  · intro k hk
    have hk2 : 2 * k > n := hk
    omega

/-- Witness of the amended C8 at `n = 4`, an even size. -/
theorem minRequiredNodes_least_half_witness :
    (1 : Int) ≤ 4 ∧ IsLeast {k : Int | 2 * k ≥ 4} (minRequiredNodes 4) ∧
      2 * minRequiredNodes 4 = 4 :=
  ⟨by decide, (minRequiredNodes_least_half 4 (by decide)).1,
    (minRequiredNodes_least_half 4 (by decide)).2.2 (by decide)⟩

/-- Claim C9. For every roster size `n >= 1` the threshold the code computes with the
truncating division of Go equals `floor((n-1)/2)+1`; for n in 1, 2, 3, 4, 5, 7, 10 it is
1, 1, 2, 2, 3, 4, 5. -/
theorem minRequiredNodes_eq_ComputeMinRequired (n : Int) (h : 1 ≤ n) :
    minRequiredNodes n = ComputeMinRequired n ∧
    [1, 2, 3, 4, 5, 7, 10].map minRequiredNodes = [1, 1, 2, 2, 3, 4, 5] := by
  refine ⟨?_, by decide⟩
  rw [minRequiredNodes_eq_ediv n h, ComputeMinRequired]
  congr 1
  symm
  rw [Int.floor_eq_iff]
  have h1 : 2 * ((n - 1) / 2) ≤ n - 1 := by omega
  have h2 : n - 1 < 2 * ((n - 1) / 2) + 2 := by omega
  have h1q : (2 : ℚ) * (((n - 1) / 2 : Int) : ℚ) ≤ (n : ℚ) - 1 := by exact_mod_cast h1
  have h2q : (n : ℚ) - 1 < 2 * (((n - 1) / 2 : Int) : ℚ) + 2 := by exact_mod_cast h2
  constructor <;> linarith

/-- Witness of C9 at `n = 7`. -/
theorem minRequiredNodes_eq_ComputeMinRequired_witness :
    (1 : Int) ≤ 7 ∧ minRequiredNodes 7 = ComputeMinRequired 7 ∧ minRequiredNodes 7 = 4 :=
  ⟨by decide, (minRequiredNodes_eq_ComputeMinRequired 7 (by decide)).1, by decide⟩

/-- Claim C10. For every roster size `n >= 1` the threshold the code computes lies
between 1 and `n`. -/
theorem minRequiredNodes_bounds (n : Int) (h : 1 ≤ n) :
    1 ≤ minRequiredNodes n ∧ minRequiredNodes n ≤ n := by
  rw [minRequiredNodes_eq_ediv n h]
  omega

/-- Witness of C10 at `n = 4`. -/
theorem minRequiredNodes_bounds_witness :
    (1 : Int) ≤ 4 ∧ 1 ≤ minRequiredNodes 4 ∧ minRequiredNodes 4 ≤ 4 :=
  ⟨by decide, minRequiredNodes_bounds 4 (by decide)⟩

/-! ## Further lemmas -/

theorem mapStore_mem_self (m : List (String × Bool)) (key : String) (value : Bool) :
    (key, value) ∈ mapStore m key value := by
  induction m with
  | nil => simp [mapStore]
  | cons e rest ih =>
    obtain ⟨k, v⟩ := e
    unfold mapStore
    split_ifs
    · exact List.mem_cons_self _ _
    · exact List.mem_cons_of_mem _ ih

theorem scaleStatefulSet_eq (w : World) (sts : StatefulSet) (k : Int) :
    scaleStatefulSet w sts k =
      if sts.Spec.Replicas = some k then (none, [])
      else (w.Update (scaledTo sts k), [Call.Update (scaledTo sts k)]) := by
  unfold scaleStatefulSet scaledTo
  split_ifs
  · rfl
  · simp only []
    split <;> simp_all

theorem probeTrace_filter_write (w : World) (ts : TypesenseCluster) :
    (probeTrace w ts).filter Call.isWrite = [] := by
  rw [List.filter_eq_nil_iff]
  intro c hc
  simp [probeTrace_no_write w ts c hc]

/-- The resize-then-scale sequence of source lines 97-111 and 115-129, for the target
size of the invocation. -/
theorem getQuorumHealth_transition (w : World) (ts : TypesenseCluster) (sts : StatefulSet)
    (hdue : (healthyCount w ts < minRequired w ts ∧ sts.Status.ReadyReplicas > 1) ∨
      (healthyCount w ts ≥ minRequired w ts ∧ sts.Status.ReadyReplicas < ts.Spec.Replicas)) :
    getQuorumHealth w ts sts =
      match (w.updateConfigMap ts (fetchConfigMap w ts) (targetSize w ts)).2 with
      | some err =>
        ((ConditionReasonQuorumNotReady, 0, some err),
          probeTrace w ts ++ [Call.updateConfigMap (targetSize w ts)])
      | none =>
        match (scaleStatefulSet w sts (targetSize w ts)).1 with
        | some err =>
          ((ConditionReasonQuorumNotReady, 0, some err),
            probeTrace w ts ++ [Call.updateConfigMap (targetSize w ts)]
              ++ (scaleStatefulSet w sts (targetSize w ts)).2)
        | none =>
          ((if healthyCount w ts < minRequired w ts then ConditionReasonQuorumDowngraded
              else ConditionReasonQuorumUpgraded,
              (w.updateConfigMap ts (fetchConfigMap w ts) (targetSize w ts)).1, none),
            probeTrace w ts ++ [Call.updateConfigMap (targetSize w ts)]
              ++ (scaleStatefulSet w sts (targetSize w ts)).2) := by
  rcases hdue with ⟨hq, hs⟩ | ⟨hq, hs⟩
  · rw [getQuorumHealth_downgrade w ts sts hq hs]
    simp only [targetSize, if_pos hq]
  · rw [getQuorumHealth_upgrade w ts sts (not_lt.mpr hq) hs]
    simp only [targetSize, if_neg (not_lt.mpr hq)]

/-- Without a transition due, the calls of `getQuorumHealth` are the read and the probes. -/
theorem getQuorumHealth_trace_idle (w : World) (ts : TypesenseCluster) (sts : StatefulSet)
    (hidle : ¬ ((healthyCount w ts < minRequired w ts ∧ sts.Status.ReadyReplicas > 1) ∨
      (healthyCount w ts ≥ minRequired w ts ∧ sts.Status.ReadyReplicas < ts.Spec.Replicas))) :
    (getQuorumHealth w ts sts).2 = probeTrace w ts := by
  by_cases hq : healthyCount w ts < minRequired w ts
  · have hs : ¬ sts.Status.ReadyReplicas > 1 := fun hs => hidle (Or.inl ⟨hq, hs⟩)
    rw [getQuorumHealth_lost w ts sts hq hs]
  · have hs : ¬ sts.Status.ReadyReplicas < ts.Spec.Replicas :=
      fun hs => hidle (Or.inr ⟨not_lt.mp hq, hs⟩)
    rw [getQuorumHealth_steady w ts sts hq hs]

theorem getQuorumHealth_trace_prefix (w : World) (ts : TypesenseCluster) (sts : StatefulSet) :
    probeTrace w ts <+: (getQuorumHealth w ts sts).2 := by
  by_cases hdue : (healthyCount w ts < minRequired w ts ∧ sts.Status.ReadyReplicas > 1) ∨
      (healthyCount w ts ≥ minRequired w ts ∧ sts.Status.ReadyReplicas < ts.Spec.Replicas)
  · rw [getQuorumHealth_transition w ts sts hdue]
    split
    · exact List.prefix_append _ _
    · split
      · rw [List.append_assoc]; exact List.prefix_append _ _
      · rw [List.append_assoc]; exact List.prefix_append _ _
  · rw [getQuorumHealth_trace_idle w ts sts hdue]

/-- The four shapes of the calls of an invocation. -/
theorem ReconcileQuorum_trace_cases (w : World) (ts : TypesenseCluster) (sts : StatefulSet) :
    (ReconcileQuorum w ts sts).2 = [] ∨
    (ReconcileQuorum w ts sts).2 = probeTrace w ts ∨
    (ReconcileQuorum w ts sts).2
      = probeTrace w ts ++ [Call.updateConfigMap (targetSize w ts)] ∨
    ((w.updateConfigMap ts (fetchConfigMap w ts) (targetSize w ts)).2 = none ∧
      (ReconcileQuorum w ts sts).2
        = probeTrace w ts ++ [Call.updateConfigMap (targetSize w ts),
            Call.Update (scaledTo sts (targetSize w ts))]) := by
  by_cases hready : sts.Status.ReadyReplicas = sts.Status.Replicas
  · rw [ReconcileQuorum_of_ready w ts sts hready]
    by_cases hdue : (healthyCount w ts < minRequired w ts ∧ sts.Status.ReadyReplicas > 1) ∨
        (healthyCount w ts ≥ minRequired w ts ∧ sts.Status.ReadyReplicas < ts.Spec.Replicas)
    · rw [getQuorumHealth_transition w ts sts hdue]
      cases hres : (w.updateConfigMap ts (fetchConfigMap w ts) (targetSize w ts)).2 with
      | some err => exact Or.inr (Or.inr (Or.inl rfl))
      | none =>
        by_cases hsame : sts.Spec.Replicas = some (targetSize w ts)
        · refine Or.inr (Or.inr (Or.inl ?_))
          simp [scaleStatefulSet_eq, if_pos hsame]
        · refine Or.inr (Or.inr (Or.inr ⟨rfl, ?_⟩))
          simp only [scaleStatefulSet_eq, if_neg hsame]
          split <;> simp
    · exact Or.inr (Or.inl (getQuorumHealth_trace_idle w ts sts hdue))
  · left
    simp [ReconcileQuorum, hready]

theorem probeTrace_filter_resize (w : World) (ts : TypesenseCluster) :
    (probeTrace w ts).filter Call.isResize = [] := by
  rw [List.filter_eq_nil_iff]
  intro c hc
  simp only [probeTrace, probeNodes_trace, List.mem_cons, List.mem_map] at hc
  rcases hc with rfl | ⟨node, _, rfl⟩ <;> simp [Call.isResize]

theorem Update_not_mem_probeTrace (w : World) (ts : TypesenseCluster) (desired : StatefulSet) :
    Call.Update desired ∉ probeTrace w ts := by
  intro hc
  have h := probeTrace_no_write w ts _ hc
  simp [Call.isWrite] at h

/-! ## The claims, continued -/

/-- Claim C11. A node is recorded healthy exactly when the request returned without
transport error, the body was read and decoded, and `ok` is true; the value of
`resource_error` plays no part: two answers that differ only in it are recorded alike.
The value recorded for the node by one pass of the loop is that classification. -/
theorem nodeHealth_classification (w : World) (ts : TypesenseCluster) (i : Nat)
    (node : String) (m : List (String × Bool)) (outcome : ProbeOutcome) :
    (nodeHealth outcome = true ↔
      ∃ statusCode resourceError,
        outcome = .decoded statusCode { Ok := true, ResourceError := resourceError }) ∧
    (∀ (statusCode : Int) (ok : Bool) (e1 e2 : String),
      nodeHealth (.decoded statusCode { Ok := ok, ResourceError := e1 })
        = nodeHealth (.decoded statusCode { Ok := ok, ResourceError := e2 })) ∧
    (node, nodeHealth (w.httpGet i (healthUrl ts node))) ∈ (probeNodes w ts i [node] m).1 := by
  refine ⟨?_, fun _ _ _ _ => rfl, ?_⟩
  · cases outcome with
    | getError err => simp [nodeHealth]
    | readError s err => simp [nodeHealth]
    | unmarshalError s err => simp [nodeHealth]
    | decoded s ready =>
      obtain ⟨ok, re⟩ := ready
      simp [nodeHealth]
  · simp only [probeNodes]
    exact mapStore_mem_self _ _ _

/-- Claim C12 as stated fails: an answer with status 503 whose body decodes to `ok: true`
is classified healthy, and an invocation whose only node answers so reports QuorumReady
with one healthy member. -/
theorem nodeHealth_ignores_status :
    nodeHealth (answer 503 true) = true ∧
    (ReconcileQuorum (worldWith "ts-sts-0:8107" [answer 503 true] none none) (clusterOf 1)
      (workloadOf 1 1 1)).1 = (ConditionReasonQuorumReady, 1, none) := by
  decide

/-- Claim C12, amended. A transport failure (a timeout is one), an unreadable body and an
unparseable body classify the node unhealthy whatever the status code; a body that is
read and decoded is classified by its `ok` field alone, whatever the status code. -/
theorem nodeHealth_by_body (statusCode : Int) (err : Err) (ready : NodeHealthResponse) :
    nodeHealth (.getError err) = false ∧
    nodeHealth (.readError statusCode err) = false ∧
    nodeHealth (.unmarshalError statusCode err) = false ∧
    nodeHealth (.decoded statusCode ready) = ready.Ok :=
  ⟨rfl, rfl, rfl, rfl⟩

/-- Claim C13. When the replica count of the workload is set and equals `desiredReplicas`,
`scaleStatefulSet` returns nil and calls nothing; otherwise it issues exactly one write,
of a copy of the workload whose replica count is `desiredReplicas`, and returns the
error of that write. -/
theorem scaleStatefulSet_idempotent (w : World) (sts : StatefulSet) (desiredReplicas : Int) :
    scaleStatefulSet w sts desiredReplicas =
      (if sts.Spec.Replicas = some desiredReplicas then (none, [])
       else (w.Update (scaledTo sts desiredReplicas),
              [Call.Update (scaledTo sts desiredReplicas)])) ∧
    (scaledTo sts desiredReplicas).Spec.Replicas = some desiredReplicas ∧
    (scaledTo sts desiredReplicas).Name = sts.Name ∧
    (scaledTo sts desiredReplicas).Status = sts.Status :=
  ⟨scaleStatefulSet_eq w sts desiredReplicas, rfl, rfl, rfl⟩

/-- Claim C14. In a downgrade or an upgrade: when the roster resize fails, the invocation
returns QuorumNotReady, size 0 and the error of the resize, and the resize is its last
call (no replica-count write); when the resize succeeds and the replica-count write
fails, it returns QuorumNotReady, size 0 and the error of the write. -/
theorem ReconcileQuorum_scale_error (w : World) (ts : TypesenseCluster) (sts : StatefulSet)
    (hready : sts.Status.ReadyReplicas = sts.Status.Replicas)
    (hdue : (healthyCount w ts < minRequired w ts ∧ sts.Status.ReadyReplicas > 1) ∨
      (healthyCount w ts ≥ minRequired w ts ∧ sts.Status.ReadyReplicas < ts.Spec.Replicas)) :
    (∀ err, (w.updateConfigMap ts (fetchConfigMap w ts) (targetSize w ts)).2 = some err →
      ReconcileQuorum w ts sts =
        ((ConditionReasonQuorumNotReady, 0, some err),
          probeTrace w ts ++ [Call.updateConfigMap (targetSize w ts)])) ∧
    (∀ err, (w.updateConfigMap ts (fetchConfigMap w ts) (targetSize w ts)).2 = none →
      sts.Spec.Replicas ≠ some (targetSize w ts) →
      w.Update (scaledTo sts (targetSize w ts)) = some err →
      ReconcileQuorum w ts sts =
        ((ConditionReasonQuorumNotReady, 0, some err),
          probeTrace w ts ++ [Call.updateConfigMap (targetSize w ts),
            Call.Update (scaledTo sts (targetSize w ts))])) := by
  rw [ReconcileQuorum_of_ready w ts sts hready, getQuorumHealth_transition w ts sts hdue]
  constructor
  · intro err hres
    simp only [hres]
  · intro err hres hne hupd
    simp only [hres, scaleStatefulSet_eq, if_neg hne, hupd, List.append_assoc,
      List.singleton_append]

/-- Witness of C14: roster of 5, every probe fails, the roster resize fails. -/
theorem ReconcileQuorum_scale_error_witness :
    (ReconcileQuorum (worldWith rosterFive [] (some "conflict") none) (clusterOf 5)
      (workloadOf 5 5 5)).1 = (ConditionReasonQuorumNotReady, 0, some "conflict") ∧
    (ReconcileQuorum (worldWith rosterFive [] none (some "forbidden")) (clusterOf 5)
      (workloadOf 5 5 5)).1 = (ConditionReasonQuorumNotReady, 0, some "forbidden") :=
  ⟨congrArg Prod.fst
      ((ReconcileQuorum_scale_error (worldWith rosterFive [] (some "conflict") none)
        (clusterOf 5) (workloadOf 5 5 5) (by decide) (by decide)).1 "conflict" (by decide)),
    congrArg Prod.fst
      ((ReconcileQuorum_scale_error (worldWith rosterFive [] none (some "forbidden"))
        (clusterOf 5) (workloadOf 5 5 5) (by decide) (by decide)).2 "forbidden" (by decide)
        (by decide) (by decide))⟩

/-- Claim C18. For every stored nodes string, the empty one included, the roster obtained
by splitting it on commas has at least one entry and at least as many entries as the
threshold; so the test of source line 48 is false in every invocation, and
`getQuorumHealth` always goes on to the probes instead of returning with the read as its
only call. -/
theorem getQuorumHealth_gate_unreachable (w : World) (ts : TypesenseCluster)
    (sts : StatefulSet) (data : String) :
    (1 ≤ (stringsSplit data ',').length ∧
      minRequiredNodes (stringsSplit data ',').length ≤ (stringsSplit data ',').length) ∧
    (1 ≤ (roster w ts).length ∧ ¬ (((roster w ts).length : Int) < minRequired w ts)) ∧
    probeTrace w ts <+: (getQuorumHealth w ts sts).2 ∧
    (getQuorumHealth w ts sts).2 ≠ [Call.Get ts.Namespace (ts.Name ++ "-nodeslist")] := by
  have hdata : 1 ≤ (stringsSplit data ',').length := by
    simp [stringsSplit, splitChars_length_pos]
  have hroster : 1 ≤ (roster w ts).length := nodesOf_length_pos _
  have hpre := getQuorumHealth_trace_prefix w ts sts
  refine ⟨⟨hdata, ?_⟩, ⟨hroster, getQuorumHealth_gate w ts⟩, hpre, ?_⟩
  · rw [minRequiredNodes_eq_ediv _ (by exact_mod_cast hdata)]
    omega
  · intro h
    have hlen := hpre.length_le
    rw [h] at hlen
    simp only [probeTrace, probeNodes_trace, List.length_cons, List.length_map,
      List.length_nil] at hlen
    omega

/-- Claim C20. The writes of an invocation are, in order: none; or the roster resize to
`k`; or the roster resize to `k` followed by the replica-count write of the same `k`,
where `k` is 1 when the healthy count is below the threshold and the desired member count
otherwise. A replica-count write occurs only after the resize has returned without error,
and an invocation resizes the roster at most once. -/
theorem writes_shape (w : World) (ts : TypesenseCluster) (sts : StatefulSet) :
    (writesOf w ts sts = [] ∨
      writesOf w ts sts = [Call.updateConfigMap (targetSize w ts)] ∨
      writesOf w ts sts = [Call.updateConfigMap (targetSize w ts),
        Call.Update (scaledTo sts (targetSize w ts))]) ∧
    (∀ desired, Call.Update desired ∈ (ReconcileQuorum w ts sts).2 →
      (w.updateConfigMap ts (fetchConfigMap w ts) (targetSize w ts)).2 = none ∧
      writesOf w ts sts = [Call.updateConfigMap (targetSize w ts),
        Call.Update (scaledTo sts (targetSize w ts))]) ∧
    ((ReconcileQuorum w ts sts).2.filter Call.isResize).length ≤ 1 := by
  have hw := probeTrace_filter_write w ts
  have hr := probeTrace_filter_resize w ts
  have hu := Update_not_mem_probeTrace w ts
  unfold writesOf
  rcases ReconcileQuorum_trace_cases w ts sts with h | h | h | ⟨hres, h⟩
  · rw [h]; simp
  · rw [h, hw, hr]
    exact ⟨Or.inl rfl, fun d hd => absurd hd (hu d), by simp⟩
  · rw [h, List.filter_append, List.filter_append, hw, hr]
    refine ⟨Or.inr (Or.inl (by simp [Call.isWrite])), fun d hd => ?_, by simp [Call.isResize]⟩
    rw [List.mem_append] at hd
    rcases hd with hd | hd
    · exact absurd hd (hu d)
    · simp at hd
  · rw [h, List.filter_append, List.filter_append, hw, hr]
    exact ⟨Or.inr (Or.inr (by simp [Call.isWrite])),
      fun d _ => ⟨hres, by simp [Call.isWrite]⟩, by simp [Call.isResize]⟩


/-! ## Lemmas on `strings.Replace` -/

theorem stringsCut_none (old : List Char) :
    ∀ s : List Char, stringsCut old s = none → ¬ old <:+: s := by
  intro s
  induction s with
  | nil =>
    intro h hinf
    have hold : old = [] := List.infix_nil.mp hinf
    subst hold
    simp [stringsCut] at h
  | cons c t ih =>
    intro h hinf
    unfold stringsCut at h
    split_ifs at h with hp
    rw [List.infix_cons_iff] at hinf
    rcases hinf with hpre | hin
    · exact hp (List.isPrefixOf_iff_prefix.mpr hpre)
    · cases hcut : stringsCut old t with
      | none => exact ih hcut hin
      | some p => rw [hcut] at h; simp at h

theorem stringsCut_some (old : List Char) :
    ∀ (s before after : List Char), stringsCut old s = some (before, after) →
      s = before ++ old ++ after ∧
      ∀ b a : List Char, s = b ++ old ++ a → before.length ≤ b.length := by
  intro s
  induction s with
  | nil =>
    intro before after h
    unfold stringsCut at h
    split_ifs at h with he
    have hold : old = [] := by simpa using he
    simp only [Option.some.injEq, Prod.mk.injEq] at h
    obtain ⟨rfl, rfl⟩ := h
    subst hold
    simp
  | cons c t ih =>
    intro before after h
    unfold stringsCut at h
    split_ifs at h with hp
    · simp only [Option.some.injEq, Prod.mk.injEq] at h
      obtain ⟨rfl, rfl⟩ := h
      have hpre : old <+: c :: t := List.isPrefixOf_iff_prefix.mp hp
      refine ⟨?_, fun b a _ => by simp⟩
      rw [List.nil_append]
      exact (List.prefix_iff_eq_append.mp hpre).symm
    · cases hcut : stringsCut old t with
      | none => rw [hcut] at h; simp at h
      | some p =>
        obtain ⟨b0, a0⟩ := p
        rw [hcut] at h
        simp only [Option.some.injEq, Prod.mk.injEq] at h
        obtain ⟨rfl, rfl⟩ := h
        obtain ⟨hsplit, hmin⟩ := ih b0 a0 hcut
        refine ⟨by rw [hsplit]; simp, ?_⟩
        intro b a hb
        cases b with
        | nil =>
          exfalso
          apply hp
          rw [List.isPrefixOf_iff_prefix]
          exact ⟨a, by simpa using hb.symm⟩
        | cons c2 b2 =>
          simp only [List.cons_append, List.cons.injEq] at hb
          have := hmin b2 a (by simpa using hb.2)
          simp only [List.length_cons]
          omega

theorem colonPort_data (port : Int) :
    (":" ++ fmtD port).data = (':' : Char) :: (fmtD port).data := by
  simp [String.data_append]

theorem nodeUrl_empty (ts : TypesenseCluster) : nodeUrl ts "" = "" := by
  simp [nodeUrl, stringsReplace, colonPort_data, stringsCut]

/-- Claim C15 as stated fails. With peering port 8107: an address that carries the peering
port in the middle does not end with `:8107`, yet it is not probed as it stands; and an
address that ends with `:8107` and has it earlier too loses the earlier occurrence, not
the suffix. -/
theorem nodeUrl_not_suffix_stripping :
    stripPortSuffix "ts-sts-0.ts-sts-svc:8107:8108" 8107 = "ts-sts-0.ts-sts-svc:8107:8108" ∧
    nodeUrl (clusterOf 3) "ts-sts-0.ts-sts-svc:8107:8108" = "ts-sts-0.ts-sts-svc:8108" ∧
    stripPortSuffix "ts:8107-sts-0:8107" 8107 = "ts:8107-sts-0" ∧
    nodeUrl (clusterOf 3) "ts:8107-sts-0:8107" = "ts-sts-0:8107" ∧
    ¬ (∀ (ts : TypesenseCluster) (node : String),
        nodeUrl ts node = stripPortSuffix node ts.Spec.PeeringPort) := by
  refine ⟨by decide, by decide, by decide, by decide, fun h => ?_⟩
  have h1 := h (clusterOf 3) "ts-sts-0.ts-sts-svc:8107:8108"
  revert h1
  decide

/-- Claim C15, amended. The host probed is the address with the first occurrence of
`:port` removed, wherever in the address it stands, and the address unchanged when
`:port` does not occur in it. -/
theorem nodeUrl_first_occurrence (ts : TypesenseCluster) (node : String) :
    (∃ before after : List Char,
      node.data = before ++ (":" ++ fmtD ts.Spec.PeeringPort).data ++ after ∧
      (∀ b a : List Char, node.data = b ++ (":" ++ fmtD ts.Spec.PeeringPort).data ++ a →
        before.length ≤ b.length) ∧
      nodeUrl ts node = String.mk (before ++ after)) ∨
    (¬ (":" ++ fmtD ts.Spec.PeeringPort).data <:+: node.data ∧ nodeUrl ts node = node) := by
  unfold nodeUrl stringsReplace
  cases hcut : stringsCut (":" ++ fmtD ts.Spec.PeeringPort).data node.data with
  | none => exact Or.inr ⟨stringsCut_none _ _ hcut, rfl⟩
  | some p =>
    obtain ⟨before, after⟩ := p
    obtain ⟨hsplit, hmin⟩ := stringsCut_some _ _ _ _ hcut
    exact Or.inl ⟨before, after, hsplit, hmin, by simp⟩

/-- When the roster record cannot be read, or holds no addresses, the roster of the
invocation is one entry, the empty address: the threshold is 1, one request is made, to
the empty host, and the healthy count is 1 or 0 as that request is classified. -/
theorem roster_of_unreadable (w : World) (ts : TypesenseCluster)
    (h : (∃ err, w.Get ts.Namespace (ts.Name ++ "-nodeslist") = .error err) ∨
      (fetchConfigMap w ts).get "nodes" = "") :
    roster w ts = [""] ∧
    minRequired w ts = 1 ∧
    probeTrace w ts =
      [Call.Get ts.Namespace (ts.Name ++ "-nodeslist"), Call.httpGet "http:///health"] ∧
    healthyCount w ts = if nodeHealth (w.httpGet 0 "http:///health") then 1 else 0 := by
  have hnodes : (fetchConfigMap w ts).get "nodes" = "" := by
    rcases h with ⟨err, herr⟩ | h
    · simp [fetchConfigMap, herr, ConfigMap.get]
    · exact h
  have hroster : roster w ts = [""] := by
    simp [roster, nodesOf, hnodes, stringsSplit, splitChars]
  have hurl : healthUrl ts "" = "http:///health" := by
    simp only [healthUrl, nodeUrl_empty]
    decide
  refine ⟨hroster, ?_, ?_, ?_⟩
  · simp only [minRequired, hroster]
    decide
  · simp only [probeTrace, hroster, probeNodes, hurl]
  · simp only [healthyCount, hroster, probeNodes, hurl]
    cases nodeHealth (w.httpGet 0 "http:///health") <;> simp [healthyNodes, mapStore]

/-- When the roster record cannot be read, `getQuorumHealth` stops neither at the read
nor at the test of source line 48: its calls begin with the read and the request to the
empty host. -/
theorem getQuorumHealth_of_unreadable (w : World) (ts : TypesenseCluster) (sts : StatefulSet)
    (h : (∃ err, w.Get ts.Namespace (ts.Name ++ "-nodeslist") = .error err) ∨
      (fetchConfigMap w ts).get "nodes" = "") :
    [Call.Get ts.Namespace (ts.Name ++ "-nodeslist"), Call.httpGet "http:///health"]
      <+: (getQuorumHealth w ts sts).2 := by
  rw [← (roster_of_unreadable w ts h).2.2.1]
  exact getQuorumHealth_trace_prefix w ts sts

/-- Claim C16, evaluated where it fails. The read of the roster record fails, three
members are ready and the request to the empty host fails. An empty roster, size 0, is
below the threshold computed for it, so the test of source line 48 would end the
invocation there; but the roster the code goes on with is one entry, the empty address,
size 1, which passes that test: the invocation probes the empty host, counts 0 healthy
members against a threshold of 1, resizes the roster and the workload to 1 and returns
QuorumDowngraded with a nil error. -/
theorem ReconcileQuorum_unreadable_roster :
    fetchConfigMap worldUnreadable (clusterOf 3) = { Data := [] } ∧
    (0 : Int) < minRequiredNodes 0 ∧
    roster worldUnreadable (clusterOf 3) = [""] ∧
    (roster worldUnreadable (clusterOf 3)).length = 1 ∧
    ¬ (((roster worldUnreadable (clusterOf 3)).length : Int)
        < minRequired worldUnreadable (clusterOf 3)) ∧
    healthyCount worldUnreadable (clusterOf 3) = 0 ∧
    getQuorumHealth worldUnreadable (clusterOf 3) (workloadOf 3 3 3) =
      ((ConditionReasonQuorumDowngraded, 1, none),
        [Call.Get "default" "ts-nodeslist", Call.httpGet "http:///health",
          Call.updateConfigMap 1, Call.Update (workloadOf 1 3 3)]) ∧
    ReconcileQuorum worldUnreadable (clusterOf 3) (workloadOf 3 3 3) =
      ((ConditionReasonQuorumDowngraded, 1, none),
        [Call.Get "default" "ts-nodeslist", Call.httpGet "http:///health",
          Call.updateConfigMap 1, Call.Update (workloadOf 1 3 3)]) := by
  decide

/-! ## Lemmas on the map of probe results -/

theorem mapStore_keys_mem (m : List (String × Bool)) (key : String) (value : Bool)
    (a : String) :
    a ∈ (mapStore m key value).map Prod.fst ↔ a = key ∨ a ∈ m.map Prod.fst := by
  induction m with
  | nil => simp [mapStore]
  | cons e rest ih =>
    obtain ⟨k, v⟩ := e
    unfold mapStore
    split_ifs with hk
    · subst hk; simp
    · simp only [List.map_cons, List.mem_cons, ih]
      tauto

theorem mapStore_nodup (m : List (String × Bool)) (key : String) (value : Bool)
    (h : (m.map Prod.fst).Nodup) : ((mapStore m key value).map Prod.fst).Nodup := by
  induction m with
  | nil => simp [mapStore]
  | cons e rest ih =>
    obtain ⟨k, v⟩ := e
    simp only [List.map_cons, List.nodup_cons] at h
    unfold mapStore
    split_ifs with hk
    · subst hk
      simpa using h
    · simp only [List.map_cons, List.nodup_cons, mapStore_keys_mem]
      exact ⟨fun hmem => hmem.elim hk h.1, ih h.2⟩

theorem mapStore_mem (m : List (String × Bool)) (key : String) (value : Bool)
    (h : (m.map Prod.fst).Nodup) (a : String) (b : Bool) :
    (a, b) ∈ mapStore m key value ↔ (a = key ∧ b = value) ∨ (a ≠ key ∧ (a, b) ∈ m) := by
  induction m with
  | nil => simp [mapStore]
  | cons e rest ih =>
    obtain ⟨k, v⟩ := e
    simp only [List.map_cons, List.nodup_cons] at h
    unfold mapStore
    split_ifs with hk
    · subst hk
      simp only [List.mem_cons, Prod.mk.injEq]
      constructor
      · rintro (hab | hrest)
        · exact Or.inl hab
        · refine Or.inr ⟨?_, Or.inr hrest⟩
          rintro rfl
          exact h.1 (List.mem_map_of_mem Prod.fst hrest)
      · rintro (hab | ⟨hne, hab | hrest⟩)
        · exact Or.inl hab
        · exact absurd hab.1 hne
        · exact Or.inr hrest
    · simp only [List.mem_cons, Prod.mk.injEq, ih h.2]
      constructor
      · rintro (⟨rfl, rfl⟩ | hab | ⟨hne, hrest⟩)
        · exact Or.inr ⟨hk, Or.inl ⟨rfl, rfl⟩⟩
        · exact Or.inl hab
        · exact Or.inr ⟨hne, Or.inr hrest⟩
      · rintro (hab | ⟨hne, ⟨rfl, rfl⟩ | hrest⟩)
        · exact Or.inr (Or.inl hab)
        · exact Or.inl ⟨rfl, rfl⟩
        · exact Or.inr (Or.inr ⟨hne, hrest⟩)

theorem lastOutcome_append_singleton (es : List (String × Bool)) (e : String × Bool)
    (a : String) :
    lastOutcome (es ++ [e]) a = if e.1 = a then some e.2 else lastOutcome es a := by
  induction es with
  | nil => simp [lastOutcome]
  | cons x rest ih =>
    have hstep : lastOutcome (x :: (rest ++ [e])) a =
        match lastOutcome (rest ++ [e]) a with
        | some healthy => some healthy
        | none => if x.1 = a then some x.2 else none := rfl
    rw [List.cons_append, hstep, ih]
    by_cases he : e.1 = a
    · simp [he]
    · simp [he, lastOutcome]

theorem lastOutcome_some_mem (es : List (String × Bool)) (a : String) (b : Bool)
    (h : lastOutcome es a = some b) : a ∈ es.map Prod.fst := by
  induction es with
  | nil => simp [lastOutcome] at h
  | cons x rest ih =>
    simp only [lastOutcome] at h
    cases hrest : lastOutcome rest a with
    | some v =>
      rw [hrest] at h
      simp only [Option.some.injEq] at h
      subst h
      exact List.mem_cons_of_mem _ (ih hrest)
    | none =>
      rw [hrest] at h
      simp only at h
      split_ifs at h with hx
      simp [hx]

/-- The map after the loop has recorded `es` into the empty map: no key twice, and each
address holds the result recorded last for it. -/
theorem recorded_last (es : List (String × Bool)) :
    ((es.foldl (fun m entry => mapStore m entry.1 entry.2) []).map Prod.fst).Nodup ∧
    ∀ (a : String) (b : Bool),
      (a, b) ∈ es.foldl (fun m entry => mapStore m entry.1 entry.2) [] ↔
        lastOutcome es a = some b := by
  induction es using List.reverseRecOn with
  | nil => simp [lastOutcome]
  | append_singleton es e ih =>
    rw [List.foldl_append]
    simp only [List.foldl_cons, List.foldl_nil]
    refine ⟨mapStore_nodup _ _ _ ih.1, fun a b => ?_⟩
    rw [mapStore_mem _ _ _ ih.1, lastOutcome_append_singleton, ih.2]
    by_cases he : e.1 = a
    · subst he
      simp [eq_comm]
    · have hne : a ≠ e.1 := fun h => he h.symm
      simp [he, hne]

theorem unhealthyEntries_recorded (es : List (String × Bool)) :
    unhealthyEntries (es.foldl (fun m entry => mapStore m entry.1 entry.2) [])
      = (unhealthyAddresses es).length := by
  obtain ⟨hnd, hmem⟩ := recorded_last es
  generalize es.foldl (fun m entry => mapStore m entry.1 entry.2) [] = m at hnd hmem
  have hlen : unhealthyEntries m
      = ((m.filter (fun entry => !entry.2)).map Prod.fst).length := by
    simp [unhealthyEntries]
  have h1 : ∀ a, a ∈ (m.filter (fun entry => !entry.2)).map Prod.fst ↔
      lastOutcome es a = some false := by
    intro a
    rw [← hmem a false]
    simp only [List.mem_map, List.mem_filter]
    constructor
    · rintro ⟨⟨a2, b⟩, ⟨hin, hb⟩, rfl⟩
      have hb2 : b = false := by simpa using hb
      subst hb2
      exact hin
    · intro hin
      exact ⟨(a, false), ⟨hin, rfl⟩, rfl⟩
  have h2 : ∀ a, a ∈ unhealthyAddresses es ↔ lastOutcome es a = some false := by
    intro a
    simp only [unhealthyAddresses, List.mem_filter, List.mem_dedup, decide_eq_true_eq]
    exact ⟨fun h => h.2, fun h => ⟨lastOutcome_some_mem es a false h, h⟩⟩
  rw [hlen]
  apply List.Perm.length_eq
  have hnd2 : (unhealthyAddresses es).Nodup := (List.nodup_dedup _).filter _
  refine (List.perm_ext_iff_of_nodup
    (hnd.sublist ((List.filter_sublist _).map Prod.fst)) hnd2).mpr ?_
  intro a
  rw [h1, h2]

theorem probeNodes_recorded (w : World) (ts : TypesenseCluster) (nodes : List String) :
    ∀ (i : Nat) (m : List (String × Bool)),
      (probeNodes w ts i nodes m).1 =
        (probeEntriesFrom w ts i nodes).foldl (fun m entry => mapStore m entry.1 entry.2) m := by
  induction nodes with
  | nil => intro i m; rfl
  | cons node rest ih => intro i m; simp [probeNodes, probeEntriesFrom, ih]

theorem probeEntriesFrom_length (w : World) (ts : TypesenseCluster) (nodes : List String) :
    ∀ i : Nat, (probeEntriesFrom w ts i nodes).length = nodes.length := by
  induction nodes with
  | nil => intro i; rfl
  | cons node rest ih => intro i; simp [probeEntriesFrom, ih]

/-- The healthy count of an invocation is the tally of its entries. -/
theorem healthyCount_eq_tally (w : World) (ts : TypesenseCluster) :
    healthyCount w ts = tally (probeEntries w ts) := by
  simp only [healthyCount, tally, probeEntries, probeNodes_recorded, probeEntriesFrom_length]

theorem tally_eq (es : List (String × Bool)) :
    tally es = (es.length : Int) - ((unhealthyAddresses es).length : Int) := by
  rw [tally, healthyNodes_eq, unhealthyEntries_recorded]

theorem unhealthyAddresses_length_le (es : List (String × Bool)) :
    (unhealthyAddresses es).length ≤ es.length := by
  calc (unhealthyAddresses es).length
      ≤ ((es.map Prod.fst).dedup).length := List.length_filter_le _ _
    _ ≤ (es.map Prod.fst).length := (List.dedup_sublist _).length_le
    _ = es.length := List.length_map _ _

/-- Claim C19. The healthy count is the roster size minus the number of distinct
addresses whose result recorded last, in roster order, is unhealthy; so it lies between
0 and the roster size, and an address named more than once is subtracted at most once. -/
theorem healthyCount_eq_last_outcome (w : World) (ts : TypesenseCluster) :
    healthyCount w ts
      = ((roster w ts).length : Int) - ((unhealthyAddresses (probeEntries w ts)).length : Int) ∧
    0 ≤ healthyCount w ts ∧
    healthyCount w ts ≤ (roster w ts).length ∧
    (unhealthyAddresses (probeEntries w ts)).Nodup := by
  have hlen : (probeEntries w ts).length = (roster w ts).length :=
    probeEntriesFrom_length w ts _ 0
  have hle := unhealthyAddresses_length_le (probeEntries w ts)
  have heq : healthyCount w ts
      = ((roster w ts).length : Int)
        - ((unhealthyAddresses (probeEntries w ts)).length : Int) := by
    rw [healthyCount_eq_tally, tally_eq, hlen]
  refine ⟨heq, ?_, ?_, (List.nodup_dedup _).filter _⟩
  · rw [heq]; omega
  · rw [heq]; omega

theorem lastOutcome_iff_mem_of_nodup (es : List (String × Bool))
    (hnd : (es.map Prod.fst).Nodup) (a : String) (b : Bool) :
    lastOutcome es a = some b ↔ (a, b) ∈ es := by
  induction es with
  | nil => simp [lastOutcome]
  | cons x rest ih =>
    obtain ⟨k, v⟩ := x
    simp only [List.map_cons, List.nodup_cons] at hnd
    have ih2 := ih hnd.2
    simp only [lastOutcome, List.mem_cons, Prod.mk.injEq]
    cases hrest : lastOutcome rest a with
    | some v2 =>
      have hka : k ≠ a := by
        rintro rfl
        exact hnd.1 (lastOutcome_some_mem rest k v2 hrest)
      rw [← ih2, hrest]
      constructor
      · intro h; exact Or.inr h
      · rintro (⟨h, _⟩ | h)
        · exact absurd h.symm hka
        · exact h
    | none =>
      have hnot : (a, b) ∉ rest := by
        rw [← ih2, hrest]; simp
      by_cases hka : k = a
      · subst hka
        simp [hnot, eq_comm]
      · have hak : ¬ a = k := fun h => hka h.symm
        simp [hka, hak, hnot]

theorem probeEntriesFrom_keys (w : World) (ts : TypesenseCluster) (nodes : List String) :
    ∀ i : Nat, (probeEntriesFrom w ts i nodes).map Prod.fst = nodes := by
  induction nodes with
  | nil => intro i; rfl
  | cons node rest ih => intro i; simp [probeEntriesFrom, ih]

/-- On entries that name no address twice the tally does not depend on the order. -/
theorem tally_perm_of_nodup (es1 es2 : List (String × Bool)) (hperm : es1.Perm es2)
    (hnd : (es1.map Prod.fst).Nodup) : tally es1 = tally es2 := by
  have hnd2 : (es2.map Prod.fst).Nodup := (hperm.map Prod.fst).nodup_iff.mp hnd
  have hmem : ∀ a, a ∈ unhealthyAddresses es1 ↔ a ∈ unhealthyAddresses es2 := by
    intro a
    simp only [unhealthyAddresses, List.mem_filter, List.mem_dedup, decide_eq_true_eq,
      lastOutcome_iff_mem_of_nodup es1 hnd, lastOutcome_iff_mem_of_nodup es2 hnd2,
      (hperm.map Prod.fst).mem_iff, hperm.mem_iff]
  have hlen : (unhealthyAddresses es1).length = (unhealthyAddresses es2).length :=
    ((List.perm_ext_iff_of_nodup ((List.nodup_dedup _).filter _)
      ((List.nodup_dedup _).filter _)).mpr hmem).length_eq
  rw [tally_eq, tally_eq, hlen, hperm.length_eq]

/-- On a roster that names no address twice, permuting the entries, each with its own
probe result, leaves the healthy count unchanged. -/
theorem healthyCount_perm_of_nodup (w1 w2 : World) (ts : TypesenseCluster)
    (hperm : (probeEntries w1 ts).Perm (probeEntries w2 ts)) (hnd : (roster w1 ts).Nodup) :
    healthyCount w1 ts = healthyCount w2 ts := by
  rw [healthyCount_eq_tally, healthyCount_eq_tally]
  apply tally_perm_of_nodup _ _ hperm
  rw [probeEntries, probeEntriesFrom_keys]
  exact hnd

/-- Claim C17, evaluated where it fails. The roster names one address twice; the two
invocations have the same entries, each with its own probe result, in a different order
(the healthy and the unhealthy answer of the repeated address are swapped). The healthy
counts are 2 and 1, and the conditions returned are QuorumReady and QuorumDowngraded. -/
theorem healthyCount_order_sensitive :
    (probeEntries (worldWith rosterRepeat [answer 503 false, okAnswer, answer 503 false]
        none none) (clusterOf 3)).Perm
      (probeEntries (worldWith rosterRepeat [okAnswer, answer 503 false, answer 503 false]
        none none) (clusterOf 3)) ∧
    healthyCount (worldWith rosterRepeat [answer 503 false, okAnswer, answer 503 false]
      none none) (clusterOf 3) = 2 ∧
    healthyCount (worldWith rosterRepeat [okAnswer, answer 503 false, answer 503 false]
      none none) (clusterOf 3) = 1 ∧
    (ReconcileQuorum (worldWith rosterRepeat [answer 503 false, okAnswer, answer 503 false]
      none none) (clusterOf 3) (workloadOf 3 3 3)).1 = (ConditionReasonQuorumReady, 2, none) ∧
    (ReconcileQuorum (worldWith rosterRepeat [okAnswer, answer 503 false, answer 503 false]
      none none) (clusterOf 3) (workloadOf 3 3 3)).1
        = (ConditionReasonQuorumDowngraded, 1, none) := by
  decide

/-- Witness of C20, scenario B: the writes are the resize to 1, then the write of replica
count 1. -/
theorem writes_shape_witness :
    targetSize (worldOf rosterFive 3) (clusterOf 5) = 1 ∧
    writesOf (worldOf rosterFive 3) (clusterOf 5) (workloadOf 5 5 5)
      = [Call.updateConfigMap 1, Call.Update (workloadOf 1 5 5)] ∧
    ((ReconcileQuorum (worldOf rosterFive 3) (clusterOf 5) (workloadOf 5 5 5)).2.filter
      Call.isResize).length ≤ 1 :=
  ⟨by decide, by decide,
    (writes_shape (worldOf rosterFive 3) (clusterOf 5) (workloadOf 5 5 5)).2.2⟩

end controller
